import Mathlib

/-!
Verification of the joint-matrix core of `stsc/utils.py`: the pair
`make_joint_matrix` (join) and `split_joint_matrix` (split).

The embedding works over in-memory labeled tables: `make_joint_matrix` in the
source reads its inputs from paths via `read_file`; here the already-read
tables are the input, matching the spec-level contract `join(tables)`.
A pandas `DataFrame` is embedded as a `Table`: a list of row labels, a list
of column labels, and a row-major list of value rows.  The numeric entries
carry no arithmetic in either operation (values are only copied or
zero-filled), so they are embedded as `Int`.
-/

/-- A labeled numeric table (embeds the pandas `DataFrame`s handled by
`make_joint_matrix` / `split_joint_matrix`): row labels, column labels and
row-major values. -/
structure Table where
  rows : List String
  cols : List String
  values : List (List Int)
deriving DecidableEq

/-- Well-formedness that every pandas `DataFrame` satisfies by construction:
one value row per row label, one entry per column in each value row, and
column labels unique within the table (the spec's data model: column labels
are "strings, unique"). -/
def Table.WF (t : Table) : Prop :=
  t.values.length = t.rows.length ∧
    (∀ v ∈ t.values, v.length = t.cols.length) ∧ t.cols.Nodup

instance (t : Table) : Decidable t.WF := by
  unfold Table.WF; infer_instance

/-- The separator token `"&-"`, as a character list. -/
def sepL : List Char := ['&', '-']

/-- The decimal digit characters used by `str(k)` for a natural number. -/
def digitChar (d : Nat) : Char :=
  if d = 0 then '0' else if d = 1 then '1' else if d = 2 then '2'
  else if d = 3 then '3' else if d = 4 then '4' else if d = 5 then '5'
  else if d = 6 then '6' else if d = 7 then '7' else if d = 8 then '8'
  else '9'

/-- Structural worker for `natDigits`: the fuel argument only bounds the
recursion depth (any fuel at least the number being printed is enough). -/
def natDigitsGo : Nat → Nat → List Char
  | 0, n => [digitChar n]
  | fuel + 1, n =>
    if n < 10 then [digitChar n]
    else natDigitsGo fuel (n / 10) ++ [digitChar (n % 10)]

/-- Decimal digits of a natural number, most significant first: the
character content of Python's `str(k)` for the non-negative source index
`k` used in the row tag `str(k) + '&-' + rowname`. -/
def natDigits (n : Nat) : List Char := natDigitsGo n n

theorem natDigitsGo_congr : ∀ (f1 f2 n : Nat), n ≤ f1 → n ≤ f2 →
    natDigitsGo f1 n = natDigitsGo f2 n := by
  intro f1
  induction f1 with
  | zero =>
    intro f2 n h1 _
    have hn : n = 0 := Nat.le_zero.mp h1
    subst hn
    cases f2 with
    | zero => rfl
    | succ f2 => simp [natDigitsGo]
  | succ f1 ih =>
    intro f2 n h1 h2
    by_cases hn : n < 10
    · cases f2 with
      | zero =>
        have hz : n = 0 := Nat.le_zero.mp h2
        subst hz
        simp [natDigitsGo]
      | succ f2 => simp [natDigitsGo, hn]
    · have hn0 : 0 < n := by omega
      have hdiv : n / 10 < n := Nat.div_lt_self hn0 (by omega)
      cases f2 with
      | zero => omega
      | succ f2 =>
        simp only [natDigitsGo]
        rw [if_neg hn, if_neg hn, ih f2 (n / 10) (by omega) (by omega)]

theorem natDigits_unfold (n : Nat) : natDigits n =
    if n < 10 then [digitChar n] else natDigits (n / 10) ++ [digitChar (n % 10)] := by
  unfold natDigits
  cases hn : n with
  | zero => rfl
  | succ m =>
    simp only [natDigitsGo]
    by_cases h10 : m + 1 < 10
    · rw [if_pos h10, if_pos h10]
    · rw [if_neg h10, if_neg h10]
      have hdiv : (m + 1) / 10 < m + 1 := Nat.div_lt_self (by omega) (by omega)
      rw [natDigitsGo_congr m ((m + 1) / 10) ((m + 1) / 10) (by omega) (by omega)]

/-- Python's `str(k)` for a natural number. -/
def natToStr (n : Nat) : String := String.mk (natDigits n)

/-- Python's `s.split("&-")`: cut the character list at every
(leftmost-first, non-overlapping) occurrence of the separator. -/
def splitSep : List Char → List (List Char)
  | [] => [[]]
  | [c] => [[c]]
  | c :: d :: cs =>
    if c = '&' ∧ d = '-' then
      [] :: splitSep cs
    else
      match splitSep (d :: cs) with
      | [] => [[c]]
      | h :: t => (c :: h) :: t

/-- Python's `s.replace("&-", "_")` (join the `"&-"`-split fragments
with `'_'`), applied by `split_joint_matrix` to the recovered row names. -/
def replaceSep (s : String) : String :=
  String.mk (List.intercalate ['_'] (splitSep s.data))

/-- Numeric value of a list of decimal digit characters. -/
def digitsToNat (l : List Char) : Nat :=
  l.foldl (fun a c => 10 * a + (c.toNat - 48)) 0

/-- The whitespace recognised by the C-level integer scanner
(`Py_ISSPACE`): space, tab, line feed, vertical tab, form feed, carriage
return.  Note that this is smaller than the Unicode whitespace set: for
example `int('\x1c7')` fails even though `'\x1c'.isspace()` holds,
because code points below 127 pass through the transform untouched. -/
def isAsciiIntSpace (c : Char) : Bool :=
  decide (c.toNat = 32 ∨ (9 ≤ c.toNat ∧ c.toNat ≤ 13))

/-- The Unicode whitespace code points at or above 127
(`Py_UNICODE_ISSPACE`), which `int()`'s transform turns into an ASCII
space. -/
def pySpaceHigh : List Nat :=
  [0x85, 0xA0, 0x1680, 0x2000, 0x2001, 0x2002, 0x2003, 0x2004, 0x2005,
   0x2006, 0x2007, 0x2008, 0x2009, 0x200A, 0x2028, 0x2029, 0x202F, 0x205F,
   0x3000]

/-- First code point of every aligned run of ten Unicode decimal-digit
characters (category Nd, the domain of `Py_UNICODE_TODECIMAL`): the
character at `start + v` has decimal value `v`.  This is the full table
of the Unicode database used by the CPython interpreter (660 characters
in 66 decades). -/
def ndDecadeStarts : List Nat :=
  [0x30, 0x660, 0x6F0, 0x7C0, 0x966, 0x9E6, 0xA66, 0xAE6, 0xB66, 0xBE6,
   0xC66, 0xCE6, 0xD66, 0xDE6, 0xE50, 0xED0, 0xF20, 0x1040, 0x1090,
   0x17E0, 0x1810, 0x1946, 0x19D0, 0x1A80, 0x1A90, 0x1B50, 0x1BB0,
   0x1C40, 0x1C50, 0xA620, 0xA8D0, 0xA900, 0xA9D0, 0xA9F0, 0xAA50,
   0xABF0, 0xFF10, 0x104A0, 0x10D30, 0x11066, 0x110F0, 0x11136, 0x111D0,
   0x112F0, 0x11450, 0x114D0, 0x11650, 0x116C0, 0x11730, 0x118E0,
   0x11950, 0x11C50, 0x11D50, 0x11DA0, 0x16A60, 0x16AC0, 0x16B50,
   0x1D7CE, 0x1D7D8, 0x1D7E2, 0x1D7EC, 0x1D7F6, 0x1E140, 0x1E2F0,
   0x1E950, 0x1FBF0]

/-- Decimal value of a Unicode decimal-digit character
(`Py_UNICODE_TODECIMAL`), `none` for every other character. -/
def unicodeDecimal? (c : Char) : Option Nat :=
  match ndDecadeStarts.find? (fun s => decide (s ≤ c.toNat ∧ c.toNat < s + 10)) with
  | some s => some (c.toNat - s)
  | none => none

/-- CPython's decimal-and-space-to-ASCII transform, the first stage of
`int(str)`: code points below 127 pass through unchanged, Unicode
whitespace at or above 127 becomes an ASCII space, Unicode decimal
digits become the corresponding ASCII digit, and any other character
poisons the string (CPython substitutes `'?'`, which the ASCII scanner
can never accept, so the whole conversion fails). -/
def pyIntTransform? : List Char → Option (List Char)
  | [] => some []
  | c :: cs =>
    if c.toNat < 127 then
      (pyIntTransform? cs).map (fun r => c :: r)
    else if pySpaceHigh.contains c.toNat then
      (pyIntTransform? cs).map (fun r => ' ' :: r)
    else
      match unicodeDecimal? c with
      | some d => (pyIntTransform? cs).map (fun r => digitChar d :: r)
      | none => none

/-- The digit-run continuation of the ASCII integer scanner, after one
digit has been read: further digits with single underscores allowed only
between digits (when the previous character was an underscore, the flag
is set and the next character must be a digit).  Returns the digits read
and the unconsumed remainder. -/
def digitsRun (afterUnderscore : Bool) : List Char → Option (List Char × List Char)
  | [] => if afterUnderscore then none else some ([], [])
  | c :: rest =>
    if c.isDigit then
      (digitsRun false rest).map (fun p => (c :: p.1, p.2))
    else if c = '_' then
      if afterUnderscore then none else digitsRun true rest
    else if afterUnderscore then none
    else some ([], c :: rest)

/-- After the optional sign: a non-empty underscore-grouped digit run,
then only trailing ASCII whitespace may remain. -/
def pyIntBody (neg : Bool) : List Char → Option Int
  | [] => none
  | c :: rest =>
    if c.isDigit then
      match digitsRun false rest with
      | none => none
      | some (ds, rest2) =>
        if rest2.dropWhile isAsciiIntSpace = [] then
          some (if neg then -(digitsToNat (c :: ds) : Int)
            else (digitsToNat (c :: ds) : Int))
        else none
    else none

/-- The ASCII integer scanner (`PyLong_FromString`, base 10) applied to
the transformed string: leading ASCII whitespace, an optional single
sign, a non-empty digit run with single underscores between digits, and
trailing ASCII whitespace. -/
def pyIntAscii (t : List Char) : Option Int :=
  match t.dropWhile isAsciiIntSpace with
  | '-' :: r => pyIntBody true r
  | '+' :: r => pyIntBody false r
  | r => pyIntBody false r

/-- The numeric parse applied to the row-tag prefixes:
`np.array(idx).astype(int)` converts each element with Python's
`int(str)`, modeled here as CPython evaluates it — the
decimal-and-space-to-ASCII transform followed by the base-10 ASCII
scanner.  Accepts Unicode digits and whitespace and underscore-grouped
digits exactly as `int()` does (e.g. `1_2`, Arabic-Indic digits, or a
form-feed-padded `\x0c7`), and fails exactly where `int()` raises
`ValueError`. -/
def pyInt? (s : String) : Option Int :=
  match pyIntTransform? s.data with
  | none => none
  | some t => pyIntAscii t

/-- Parse every element, failing as a whole if any single parse fails
(the all-or-nothing behavior of `np.array(...).astype(int)`). -/
def parseAll : List String → Option (List Int)
  | [] => some []
  | s :: l =>
    match pyInt? s, parseAll l with
    | some i, some is => some (i :: is)
    | _, _ => none

/-- The composite row key `str(k) + '&-' + x` attached by
`make_joint_matrix` to row `x` of source `k`. -/
def tagLabel (k : Nat) (x : String) : String :=
  natToStr k ++ "&-" ++ x

/-- The column union of `make_joint_matrix`: iterated
`pandas.Index.union` over the input tables' columns, i.e. the distinct
column labels sorted lexicographically. -/
def jointCols (tables : List Table) : List String :=
  List.insertionSort (fun a b : String => a.data ≤ b.data)
    ((tables.foldl (fun acc t => acc ++ t.cols) []).dedup)

/-- One joint-matrix row for a value row `vrow` of source table `t`:
the source's value at each union column the source has, `0` for the
union columns it lacks (`jmat.loc[start:end, mlist[k].columns] =
mlist[k].values` over the zero-initialised joint matrix). -/
def jointRowFor (gcols : List String) (t : Table) (vrow : List Int) : List Int :=
  gcols.map (fun g => ((t.cols.zip vrow).lookup g).getD 0)

/-- `enumerate(tables)` starting at `i`. -/
def enumFrom (i : Nat) : List Table → List (Nat × Table)
  | [] => []
  | t :: ts => (i, t) :: enumFrom (i + 1) ts

/-- `make_joint_matrix` over already-read tables: row labels are the
source-tagged originals in source order, columns are the union of all
column sets, and each source's values sit in its own rows under its own
columns, zero elsewhere. -/
def make_joint_matrix (tables : List Table) : Table :=
  let gcols := jointCols tables
  { rows := (enumFrom 0 tables).flatMap (fun kt => kt.2.rows.map (tagLabel kt.1))
    cols := gcols
    values := tables.flatMap (fun t => t.values.map (jointRowFor gcols t)) }

/-- The failure signalled when `split_joint_matrix` is handed row labels
not of the `str(k) + '&-' + name` shape (in the source: the
`zip`-unpacking `ValueError` / subsequent `NameError`, or the uncaught
`astype(int)` `ValueError`; in every such case the call aborts with no
result). -/
inductive SplitError where
  | malformedJointTable
deriving DecidableEq

/-- `split_joint_matrix`: split every row label on `"&-"` (the
label-shape check reflects the source's `idx, name = zip(*[...])`
unpacking, which succeeds exactly when the minimum number of split parts
over the rows is two), parse the numeric prefixes, and return one table
per distinct source index in ascending order (`np.unique`), each holding
that source's rows in their joint-matrix order with the recovered names
(separator occurrences replaced by `'_'`) as labels. -/
def split_joint_matrix (jmat : Table) : Except SplitError (List Table) :=
  let parts := jmat.rows.map (fun s => splitSep s.data)
  if (parts.map List.length).min? = some 2 then
    match parseAll (parts.map (fun p => String.mk (p.headD []))) with
    | none => Except.error SplitError.malformedJointTable
    | some ids =>
      let names := parts.map (fun p => String.mk (p.getD 1 []))
      let triples := ids.zip (names.zip jmat.values)
      let uidx := List.insertionSort (fun a b : Int => a ≤ b) ids.dedup
      Except.ok (uidx.map (fun k =>
        { rows := (triples.filter (fun tr => tr.1 == k)).map (fun tr => replaceSep tr.2.1)
          cols := jmat.cols
          values := (triples.filter (fun tr => tr.1 == k)).map (fun tr => tr.2.2) }))
  else Except.error SplitError.malformedJointTable

/-- The values of table `m` read back under the column list `cs`
(used to state the round-trip claims "restricted to the original column
set"): for each value row, the entry under each column of `cs`. -/
def restrictVals (m : Table) (cs : List String) : List (List Int) :=
  m.values.map (fun v => cs.map (fun c => ((m.cols.zip v).lookup c).getD 0))

/-- The cell of table `T` at row position `i`, column label `c` (`0` when
the row or column is absent — only used at in-range positions). -/
def cellAt (T : Table) (i : Nat) (c : String) : Int :=
  ((T.cols.zip (T.values.getD i [])).lookup c).getD 0

/-- Number of joint-matrix rows contributed by the sources before source
`k` (the source's `np.cumsum` start positions). -/
def offsetBefore : List Table → Nat → Nat
  | _, 0 => 0
  | [], _ + 1 => 0
  | t :: ts, k + 1 => t.values.length + offsetBefore ts k

/-- The table recovered for one source from the joint matrix: the
source's own rows and values expanded to the full column union. -/
def expandTable (gcols : List String) (t : Table) : Table :=
  { rows := t.rows
    cols := gcols
    values := t.values.map (jointRowFor gcols t) }

/-! ### Decimal digits and the numeric parse -/

theorem digitChar_spec (d : Nat) :
    (digitChar d).isDigit = true ∧ digitChar d ≠ '&' ∧ digitChar d ≠ '-' ∧
      digitChar d ≠ '+' ∧ digitChar d ≠ '_' ∧ (digitChar d).toNat < 127 ∧
      isAsciiIntSpace (digitChar d) = false := by
  unfold digitChar
  repeat' split
  all_goals decide

theorem digitChar_toNat (d : Nat) (h : d < 10) : (digitChar d).toNat = 48 + d := by
  interval_cases d <;> decide

theorem natDigits_ne_nil (n : Nat) : natDigits n ≠ [] := by
  rw [natDigits_unfold]
  split <;> simp

theorem mem_natDigits (n : Nat) (c : Char) (hc : c ∈ natDigits n) : ∃ d, c = digitChar d := by
  induction n using Nat.strong_induction_on with
  | _ n ih =>
    rw [natDigits_unfold] at hc
    split at hc
    · simp at hc; exact ⟨n, hc⟩
    · rename_i h
      rcases List.mem_append.mp hc with h1 | h2
      · exact ih (n / 10) (Nat.div_lt_self (by omega) (by omega)) h1
      · simp at h2; exact ⟨n % 10, h2⟩

theorem digitsToNat_append (l : List Char) (c : Char) :
    digitsToNat (l ++ [c]) = 10 * digitsToNat l + (c.toNat - 48) := by
  unfold digitsToNat
  rw [List.foldl_append]
  rfl

theorem digitsToNat_natDigits (n : Nat) : digitsToNat (natDigits n) = n := by
  induction n using Nat.strong_induction_on with
  | _ n ih =>
    rw [natDigits_unfold]
    split
    · rename_i h
      have ht := digitChar_toNat n h
      simp only [digitsToNat, List.foldl_cons, List.foldl_nil]
      omega
    · rename_i h
      rw [digitsToNat_append, ih (n / 10) (Nat.div_lt_self (by omega) (by omega))]
      have h10 : n % 10 < 10 := Nat.mod_lt _ (by omega)
      rw [digitChar_toNat _ h10]
      omega

theorem natDigits_all_digit (n : Nat) : ∀ c ∈ natDigits n, c.isDigit = true := by
  intro c hc
  obtain ⟨d, rfl⟩ := mem_natDigits n c hc
  exact (digitChar_spec d).1

theorem dropWhile_eq_self_of (p : Char → Bool) (l : List Char)
    (h : ∀ c ∈ l, p c = false) : l.dropWhile p = l := by
  cases l with
  | nil => rfl
  | cons a l => rw [List.dropWhile_cons, h a (by simp)]; simp

theorem digitsRun_all_digits (l : List Char) (h1 : ∀ c ∈ l, c.isDigit = true) :
    digitsRun false l = some (l, []) := by
  induction l with
  | nil => rfl
  | cons c rest ih =>
    simp only [digitsRun]
    rw [if_pos (h1 c (by simp))]
    rw [ih (fun x hx => h1 x (by simp [hx]))]
    rfl

theorem pyIntTransform?_ascii (l : List Char) (h : ∀ c ∈ l, c.toNat < 127) :
    pyIntTransform? l = some l := by
  induction l with
  | nil => rfl
  | cons c cs ih =>
    simp only [pyIntTransform?]
    rw [if_pos (h c (by simp))]
    rw [ih (fun x hx => h x (by simp [hx]))]
    rfl

theorem pyInt_natToStr (n : Nat) : pyInt? (natToStr n) = some (n : Int) := by
  have hmem : ∀ c ∈ natDigits n, ∃ d, c = digitChar d := mem_natDigits n
  have h127 : ∀ c ∈ natDigits n, c.toNat < 127 := by
    intro c hc
    obtain ⟨d, rfl⟩ := hmem c hc
    exact (digitChar_spec d).2.2.2.2.2.1
  have hsp : ∀ c ∈ natDigits n, isAsciiIntSpace c = false := by
    intro c hc
    obtain ⟨d, rfl⟩ := hmem c hc
    exact (digitChar_spec d).2.2.2.2.2.2
  have hdata : (natToStr n).data = natDigits n := rfl
  unfold pyInt?
  rw [hdata, pyIntTransform?_ascii _ h127]
  show pyIntAscii (natDigits n) = some (n : Int)
  unfold pyIntAscii
  rw [dropWhile_eq_self_of _ _ hsp]
  cases hd : natDigits n with
  | nil => exact absurd hd (natDigits_ne_nil n)
  | cons a body =>
    have ha : ∃ d, a = digitChar d := by
      apply hmem; rw [hd]; simp
    obtain ⟨d, rfl⟩ := ha
    have hnd : digitChar d ≠ '-' := (digitChar_spec d).2.2.1
    have hnp : digitChar d ≠ '+' := (digitChar_spec d).2.2.2.1
    split
    · rename_i heq
      exact absurd (List.head_eq_of_cons_eq heq) hnd
    · rename_i heq
      exact absurd (List.head_eq_of_cons_eq heq) hnp
    · simp only [pyIntBody]
      rw [if_pos (digitChar_spec d).1]
      have hbd : ∀ c ∈ body, c.isDigit = true := by
        intro c hc
        apply natDigits_all_digit n
        rw [hd]
        exact List.mem_cons_of_mem _ hc
      rw [digitsRun_all_digits body hbd]
      have hval : digitsToNat (digitChar d :: body) = n := by
        rw [← hd]
        exact digitsToNat_natDigits n
      simp [hval]

/-! ### Splitting on the separator token -/

theorem splitSep_ne_nil (l : List Char) : splitSep l ≠ [] := by
  match l with
  | [] => simp [splitSep]
  | [c] => simp [splitSep]
  | c :: d :: cs =>
    rw [splitSep]
    split
    · simp
    · split <;> simp

theorem splitSep_sep_cons (b : List Char) : splitSep ('&' :: '-' :: b) = [] :: splitSep b := by
  rw [splitSep]
  rw [if_pos ⟨rfl, rfl⟩]

theorem splitSep_append (a b : List Char) (ha : '&' ∉ a) :
    splitSep (a ++ '&' :: '-' :: b) = a :: splitSep b := by
  induction a with
  | nil => simpa using splitSep_sep_cons b
  | cons c a' ih =>
    have hc : c ≠ '&' := fun h => ha (h ▸ List.mem_cons_self c a')
    have ha' : '&' ∉ a' := fun h => ha (List.mem_cons_of_mem c h)
    have hrec := ih ha'
    cases hcs : a' ++ '&' :: '-' :: b with
    | nil => exact absurd (List.append_eq_nil.mp hcs).2 (by simp)
    | cons d cs =>
      show splitSep (c :: a' ++ '&' :: '-' :: b) = (c :: a') :: splitSep b
      rw [List.cons_append, hcs, splitSep]
      rw [if_neg (fun hand => hc hand.1)]
      rw [← hcs, hrec]

theorem splitSep_no_sep (l : List Char) (h : ¬ (sepL <:+: l)) : splitSep l = [l] := by
  induction l with
  | nil => rfl
  | cons c l ih =>
    cases l with
    | nil => rfl
    | cons d cs =>
      rw [splitSep]
      rw [if_neg ?hne]
      case hne =>
        rintro ⟨rfl, rfl⟩
        exact h ⟨[], cs, rfl⟩
      have htl : ¬ (sepL <:+: (d :: cs)) := by
        rintro ⟨s, t, hst⟩
        exact h ⟨c :: s, t, by rw [List.cons_append, List.cons_append, hst]⟩
      rw [ih htl]

theorem data_tagLabel (k : Nat) (x : String) :
    (tagLabel k x).data = natDigits k ++ '&' :: '-' :: x.data := by
  unfold tagLabel natToStr
  rw [String.data_append, String.data_append]
  have h2 : "&-".data = ['&', '-'] := rfl
  rw [h2, List.append_assoc]
  rfl

theorem amp_not_mem_natDigits (k : Nat) : '&' ∉ natDigits k := by
  intro hmem
  obtain ⟨d, hd⟩ := mem_natDigits k '&' hmem
  exact (digitChar_spec d).2.1 hd.symm

theorem splitSep_tagLabel (k : Nat) (x : String) (h : ¬ (sepL <:+: x.data)) :
    splitSep (tagLabel k x).data = [natDigits k, x.data] := by
  rw [data_tagLabel, splitSep_append _ _ (amp_not_mem_natDigits k), splitSep_no_sep _ h]

theorem replaceSep_no_sep (x : String) (h : ¬ (sepL <:+: x.data)) : replaceSep x = x := by
  unfold replaceSep
  rw [splitSep_no_sep _ h]
  have : List.intercalate ['_'] [x.data] = x.data := by
    simp [List.intercalate]
  rw [this]

/-! ### Generic list helpers: lookup in zipped association lists,
minima, element-wise parses, block-structured lists -/

theorem lookup_zip_not_mem {α β : Type} [BEq α] [LawfulBEq α] (l : List α) (v : List β)
    (c : α) (h : c ∉ l) : ((l.zip v).lookup c) = none := by
  induction l generalizing v with
  | nil => rfl
  | cons a l ih =>
    cases v with
    | nil => rfl
    | cons b v =>
      have hca : (c == a) = false := by
        simp only [beq_eq_false_iff_ne]
        exact fun h' => h (h' ▸ List.mem_cons_self a l)
      simp only [List.zip_cons_cons, List.lookup_cons, hca]
      exact ih v (fun hm => h (List.mem_cons_of_mem a hm))

theorem lookup_zip_map_self {α β : Type} [BEq α] [LawfulBEq α] (l : List α) (f : α → β)
    (c : α) (hnd : l.Nodup) (hc : c ∈ l) : ((l.zip (l.map f)).lookup c) = some (f c) := by
  induction l with
  | nil => simp at hc
  | cons a l ih =>
    rw [List.map_cons, List.zip_cons_cons]
    by_cases hca : c = a
    · subst hca
      simp [List.lookup_cons]
    · have hf : (c == a) = false := by simp [hca]
      simp only [List.lookup_cons, hf]
      have hcl : c ∈ l := by
        rcases List.mem_cons.mp hc with h | h
        · exact absurd h hca
        · exact h
      exact ih (List.Nodup.of_cons hnd) hcl

theorem map_lookup_zip {α β : Type} [BEq α] [LawfulBEq α] (l : List α) :
    ∀ (v : List β) (d : β), l.Nodup → v.length = l.length →
      l.map (fun c => ((l.zip v).lookup c).getD d) = v := by
  induction l with
  | nil =>
    intro v d _ hlen
    cases v with
    | nil => rfl
    | cons b v => simp at hlen
  | cons a l ih =>
    intro v d hnd hlen
    cases v with
    | nil => simp at hlen
    | cons b v =>
      rw [List.zip_cons_cons, List.map_cons]
      have hhead : (((a, b) :: l.zip v).lookup a).getD d = b := by
        simp [List.lookup_cons]
      rw [hhead]
      have hstep : ∀ c ∈ l,
          ((((a, b) :: l.zip v).lookup c).getD d) = (((l.zip v).lookup c).getD d) := by
        intro c hcl
        have hne : (c == a) = false := by
          simp only [beq_eq_false_iff_ne]
          intro h'
          exact (List.nodup_cons.mp hnd).1 (h' ▸ hcl)
        simp [List.lookup_cons, hne]
      rw [List.map_congr_left hstep, ih v d (List.Nodup.of_cons hnd) (by simpa using hlen)]

theorem foldl_min_all_eq (l : List Nat) (h : ∀ x ∈ l, x = 2) : l.foldl min 2 = 2 := by
  induction l with
  | nil => rfl
  | cons a l ih =>
    have ha : a = 2 := h a (by simp)
    rw [List.foldl_cons, ha]
    exact ih (fun x hx => h x (by simp [hx]))

theorem min?_all_two (l : List Nat) (hne : l ≠ []) (h : ∀ x ∈ l, x = 2) : l.min? = some 2 := by
  cases l with
  | nil => exact absurd rfl hne
  | cons a l =>
    have ha : a = 2 := h a (by simp)
    simp only [List.min?, ha]
    rw [foldl_min_all_eq l (fun x hx => h x (by simp [hx]))]

theorem parseAll_map_some {α : Type} (l : List α) (f : α → String) (g : α → Int)
    (h : ∀ a ∈ l, pyInt? (f a) = some (g a)) : parseAll (l.map f) = some (l.map g) := by
  induction l with
  | nil => rfl
  | cons a l ih =>
    rw [List.map_cons, List.map_cons, parseAll, h a (by simp),
      ih (fun b hb => h b (by simp [hb]))]

theorem flatMap_zip_flatMap {α β γ : Type} (l : List γ) (f : γ → List α) (g : γ → List β)
    (h : ∀ b ∈ l, (f b).length = (g b).length) :
    (l.flatMap f).zip (l.flatMap g) = l.flatMap (fun b => (f b).zip (g b)) := by
  induction l with
  | nil => rfl
  | cons a l ih =>
    rw [List.flatMap_cons, List.flatMap_cons, List.flatMap_cons]
    rw [List.zip_append (h a (by simp))]
    rw [ih (fun b hb => h b (by simp [hb]))]

theorem flatMap_filter_comm {α β : Type} (l : List α) (f : α → List β) (p : β → Bool) :
    (l.flatMap f).filter p = l.flatMap (fun a => (f a).filter p) := by
  induction l with
  | nil => rfl
  | cons a l ih => rw [List.flatMap_cons, List.flatMap_cons, List.filter_append, ih]

theorem map_const_zip {α β γ : Type} (l : List α) (m : List β) (c : γ)
    (h : l.length = m.length) :
    (l.map (fun _ => c)).zip m = m.map (fun b => (c, b)) := by
  induction l generalizing m with
  | nil =>
    cases m with
    | nil => rfl
    | cons b m => simp at h
  | cons a l ih =>
    cases m with
    | nil => simp at h
    | cons b m =>
      rw [List.map_cons, List.zip_cons_cons, List.map_cons, ih m (by simpa using h)]

theorem filter_map_comm {α β : Type} (l : List α) (f : α → β) (p : β → Bool) :
    (l.map f).filter p = (l.filter (fun a => p (f a))).map f := by
  induction l with
  | nil => rfl
  | cons a l ih =>
    rw [List.map_cons, List.filter_cons, List.filter_cons]
    cases hp : p (f a) <;> simp [hp, ih]

theorem zip_filter_fst {α β : Type} (keys : List α) (vals : List β) (p : α → Bool)
    (h : keys.length = vals.length) :
    ((keys.zip vals).filter (fun q => p q.1)).map (fun q => q.1) = keys.filter p := by
  induction keys generalizing vals with
  | nil => rfl
  | cons a keys ih =>
    cases vals with
    | nil => simp at h
    | cons b vals =>
      rw [List.zip_cons_cons, List.filter_cons, List.filter_cons]
      cases hp : p a <;> simp [hp, ih vals (by simpa using h)]

theorem mem_enumFrom (i : Nat) (tables : List Table) (kt : Nat × Table)
    (h : kt ∈ enumFrom i tables) : i ≤ kt.1 ∧ kt.2 ∈ tables := by
  induction tables generalizing i with
  | nil => simp [enumFrom] at h
  | cons t ts ih =>
    rw [enumFrom] at h
    rcases List.mem_cons.mp h with rfl | h'
    · exact ⟨le_refl i, by simp⟩
    · obtain ⟨h1, h2⟩ := ih (i + 1) h'
      exact ⟨by omega, List.mem_cons_of_mem t h2⟩

theorem enumFrom_pairwise (i : Nat) (tables : List Table) :
    (enumFrom i tables).Pairwise (fun a b => a.1 < b.1) := by
  induction tables generalizing i with
  | nil => exact List.Pairwise.nil
  | cons t ts ih =>
    rw [enumFrom]
    refine List.Pairwise.cons ?_ (ih (i + 1))
    intro b hb
    have := (mem_enumFrom (i + 1) ts b hb).1
    omega

theorem exists_mem_enumFrom (i : Nat) (tables : List Table) (t : Table) (h : t ∈ tables) :
    ∃ k, (k, t) ∈ enumFrom i tables := by
  induction tables generalizing i with
  | nil => simp at h
  | cons t0 ts ih =>
    rcases List.mem_cons.mp h with rfl | h'
    · exact ⟨i, by rw [enumFrom]; simp⟩
    · obtain ⟨k, hk⟩ := ih (i + 1) h'
      exact ⟨k, by rw [enumFrom]; exact List.mem_cons_of_mem _ hk⟩

/-! ### Splitting a table whose row labels are composite keys -/

theorem split_keyed (keys : List (Nat × String)) (gcols : List String)
    (vals : List (List Int)) (hne : keys ≠ [])
    (hns : ∀ p ∈ keys, ¬ (sepL <:+: p.2.data)) :
    split_joint_matrix
        { rows := keys.map (fun p => tagLabel p.1 p.2), cols := gcols, values := vals } =
      Except.ok ((List.insertionSort (fun a b : Int => a ≤ b)
          ((keys.map (fun p => (p.1 : Int))).dedup)).map
        (fun k =>
          { rows := (((keys.map (fun p => (p.1 : Int))).zip
                ((keys.map (fun p => p.2)).zip vals)).filter
                (fun tr => tr.1 == k)).map (fun tr => tr.2.1)
            cols := gcols
            values := (((keys.map (fun p => (p.1 : Int))).zip
                ((keys.map (fun p => p.2)).zip vals)).filter
                (fun tr => tr.1 == k)).map (fun tr => tr.2.2) })) := by
  have hparts : (keys.map (fun p => tagLabel p.1 p.2)).map (fun s => splitSep s.data)
      = keys.map (fun p => [natDigits p.1, p.2.data]) := by
    rw [List.map_map]
    exact List.map_congr_left (fun p hp => splitSep_tagLabel p.1 p.2 (hns p hp))
  have hmin : ((keys.map (fun p => [natDigits p.1, p.2.data])).map List.length).min?
      = some 2 := by
    rw [List.map_map]
    apply min?_all_two
    · simp [hne]
    · intro x hx
      obtain ⟨p, hp, rfl⟩ := List.mem_map.mp hx
      rfl
  have hheads : (keys.map (fun p => [natDigits p.1, p.2.data])).map
      (fun p => String.mk (p.headD [])) = keys.map (fun p => natToStr p.1) := by
    rw [List.map_map]
    rfl
  have hpar : parseAll (keys.map (fun p => natToStr p.1))
      = some (keys.map (fun p => (p.1 : Int))) :=
    parseAll_map_some keys _ _ (fun p _ => pyInt_natToStr p.1)
  have hnames : (keys.map (fun p => [natDigits p.1, p.2.data])).map
      (fun p => String.mk (p.getD 1 [])) = keys.map (fun p => p.2) := by
    rw [List.map_map]
    rfl
  simp only [split_joint_matrix]
  rw [hparts, hmin]
  rw [if_pos rfl]
  rw [hheads, hpar]
  rw [hnames]
  refine congrArg Except.ok (List.map_congr_left ?_)
  intro k _
  congr 1
  apply List.map_congr_left
  intro tr htr
  have htr1 : tr ∈ (keys.map (fun p => (p.1 : Int))).zip
      ((keys.map (fun p => p.2)).zip vals) := (List.mem_filter.mp htr).1
  have h21 : tr.2.1 ∈ keys.map (fun p => p.2) :=
    (List.of_mem_zip (List.of_mem_zip htr1).2).1
  obtain ⟨p, hp, hpe⟩ := List.mem_map.mp h21
  rw [← hpe, replaceSep_no_sep p.2 (hns p hp)]

/-! ### The block structure of a joint matrix built by `make_joint_matrix` -/

theorem flatMap_congr_mem {α β : Type} (l : List α) (f g : α → List β)
    (h : ∀ a ∈ l, f a = g a) : l.flatMap f = l.flatMap g := by
  induction l with
  | nil => rfl
  | cons a l ih =>
    rw [List.flatMap_cons, List.flatMap_cons, h a (by simp),
      ih (fun b hb => h b (by simp [hb]))]

/-- The composite keys `(k, x)` of all rows of the joint matrix, in joint
order: source index `k` paired with each original row label `x`. -/
def blockKeys (i : Nat) (tables : List Table) : List (Nat × String) :=
  (enumFrom i tables).flatMap (fun kt => kt.2.rows.map (fun x => (kt.1, x)))

/-- Source `k`'s rows of the joint matrix as (index, name, values) triples. -/
def blockTriples (gcols : List String) (kt : Nat × Table) :
    List (Int × String × List Int) :=
  (kt.2.rows.zip (kt.2.values.map (jointRowFor gcols kt.2))).map
    (fun rv => ((kt.1 : Int), rv.1, rv.2))

theorem blockKeys_map_tag (i : Nat) (tables : List Table) :
    (blockKeys i tables).map (fun p => tagLabel p.1 p.2)
      = (enumFrom i tables).flatMap (fun kt => kt.2.rows.map (tagLabel kt.1)) := by
  unfold blockKeys
  simp only [List.map_flatMap, List.map_map]
  rfl

theorem blockKeys_map_fst (i : Nat) (tables : List Table) :
    (blockKeys i tables).map (fun p => (p.1 : Int))
      = (enumFrom i tables).flatMap (fun kt => kt.2.rows.map (fun _ => (kt.1 : Int))) := by
  unfold blockKeys
  simp only [List.map_flatMap, List.map_map]
  rfl

theorem blockKeys_map_snd (i : Nat) (tables : List Table) :
    (blockKeys i tables).map (fun p => p.2)
      = (enumFrom i tables).flatMap (fun kt => kt.2.rows) := by
  unfold blockKeys
  simp only [List.map_flatMap, List.map_map]
  simp

theorem flatMap_values_enum (g : List String) (tables : List Table) : ∀ i : Nat,
    tables.flatMap (fun t => t.values.map (jointRowFor g t))
      = (enumFrom i tables).flatMap (fun kt => kt.2.values.map (jointRowFor g kt.2)) := by
  induction tables with
  | nil => intro i; rfl
  | cons t ts ih =>
    intro i
    rw [List.flatMap_cons, enumFrom, List.flatMap_cons, ih (i + 1)]

theorem triples_blocks (g : List String) (tables : List Table) (i : Nat)
    (hwf : ∀ t ∈ tables, t.WF) :
    ((enumFrom i tables).flatMap (fun kt => kt.2.rows.map (fun _ => (kt.1 : Int)))).zip
        (((enumFrom i tables).flatMap (fun kt => kt.2.rows)).zip
          ((enumFrom i tables).flatMap (fun kt => kt.2.values.map (jointRowFor g kt.2))))
      = (enumFrom i tables).flatMap (blockTriples g) := by
  have hlen : ∀ kt ∈ enumFrom i tables, kt.2.values.length = kt.2.rows.length := by
    intro kt hkt
    exact (hwf kt.2 (mem_enumFrom i tables kt hkt).2).1
  rw [flatMap_zip_flatMap _ _ _ (fun kt hkt => by simp [hlen kt hkt])]
  rw [flatMap_zip_flatMap _ _ _ (fun kt hkt => by
    simp [List.length_zip, hlen kt hkt])]
  apply flatMap_congr_mem
  intro kt hkt
  rw [map_const_zip _ _ _ (by simp [List.length_zip, hlen kt hkt])]
  rfl

theorem blockTriples_fst (g : List String) (kt : Nat × Table) :
    ∀ tr ∈ blockTriples g kt, tr.1 = (kt.1 : Int) := by
  intro tr htr
  obtain ⟨rv, _, rfl⟩ := List.mem_map.mp htr
  rfl

theorem filter_blocks_eq (g : List String) (tables : List Table) : ∀ (i k0 : Nat)
    (t0 : Table), (k0, t0) ∈ enumFrom i tables →
    ((enumFrom i tables).flatMap (blockTriples g)).filter
        (fun tr => tr.1 == (k0 : Int)) = blockTriples g (k0, t0) := by
  induction tables with
  | nil => intro i k0 t0 h; simp [enumFrom] at h
  | cons t ts ih =>
    intro i k0 t0 h
    rw [enumFrom] at h
    rw [enumFrom, List.flatMap_cons, List.filter_append]
    rcases List.mem_cons.mp h with heq | h'
    · have hk : k0 = i := congrArg Prod.fst heq
      have ht : t0 = t := congrArg Prod.snd heq
      subst hk
      subst ht
      have h1 : (blockTriples g (k0, t0)).filter (fun tr => tr.1 == (k0 : Int))
          = blockTriples g (k0, t0) := by
        rw [List.filter_eq_self]
        intro tr htr
        have hfst := blockTriples_fst g (k0, t0) tr htr
        simp [hfst]
      have h2 : ((enumFrom (k0 + 1) ts).flatMap (blockTriples g)).filter
          (fun tr => tr.1 == (k0 : Int)) = [] := by
        rw [List.filter_eq_nil_iff]
        intro tr htr
        obtain ⟨kt2, hkt2, htr2⟩ := List.mem_flatMap.mp htr
        have hge := (mem_enumFrom _ _ _ hkt2).1
        have hfst := blockTriples_fst g kt2 tr htr2
        simp [hfst]
        omega
      rw [h1, h2, List.append_nil]
    · have hk0 : i + 1 ≤ k0 := (mem_enumFrom _ _ _ h').1
      have h1 : (blockTriples g (i, t)).filter (fun tr => tr.1 == (k0 : Int)) = [] := by
        rw [List.filter_eq_nil_iff]
        intro tr htr
        have hfst := blockTriples_fst g (i, t) tr htr
        simp [hfst]
        omega
      rw [h1, List.nil_append]
      exact ih (i + 1) k0 t0 h' 

/-! ### The distinct source indices of a joint matrix, sorted -/

theorem sort_dedup_blocks (tables : List Table) :
    List.insertionSort (fun a b : Int => a ≤ b)
        (((enumFrom 0 tables).flatMap
          (fun kt => kt.2.rows.map (fun _ => (kt.1 : Int)))).dedup)
      = ((enumFrom 0 tables).filter (fun kt => !kt.2.rows.isEmpty)).map
          (fun kt => (kt.1 : Int)) := by
  have hpw : (((enumFrom 0 tables).filter (fun kt => !kt.2.rows.isEmpty)).map
      (fun kt => (kt.1 : Int))).Pairwise (fun a b : Int => a < b) := by
    apply List.pairwise_map.mpr
    have hsub : List.Sublist
        ((enumFrom 0 tables).filter (fun kt => !kt.2.rows.isEmpty))
        (enumFrom 0 tables) := List.filter_sublist _
    have hp2 := List.Pairwise.sublist hsub (enumFrom_pairwise 0 tables)
    exact hp2.imp (fun h => by exact_mod_cast h)
  have hsorted_pres : (((enumFrom 0 tables).filter (fun kt => !kt.2.rows.isEmpty)).map
      (fun kt => (kt.1 : Int))).Pairwise (fun a b : Int => a ≤ b) :=
    hpw.imp (fun h => le_of_lt h)
  have hnd_pres : (((enumFrom 0 tables).filter (fun kt => !kt.2.rows.isEmpty)).map
      (fun kt => (kt.1 : Int))).Nodup :=
    hpw.imp (fun h => ne_of_lt h)
  have hperm1 := List.perm_insertionSort (fun a b : Int => a ≤ b)
    (((enumFrom 0 tables).flatMap
      (fun kt => kt.2.rows.map (fun _ => (kt.1 : Int)))).dedup)
  have hnd_sort := (hperm1.nodup_iff).mpr (List.nodup_dedup _)
  have hsorted_sort := List.sorted_insertionSort (fun a b : Int => a ≤ b)
    (((enumFrom 0 tables).flatMap
      (fun kt => kt.2.rows.map (fun _ => (kt.1 : Int)))).dedup)
  have hmem : ∀ a : Int,
      (a ∈ (enumFrom 0 tables).flatMap (fun kt => kt.2.rows.map (fun _ => (kt.1 : Int)))
        ↔ a ∈ ((enumFrom 0 tables).filter (fun kt => !kt.2.rows.isEmpty)).map
            (fun kt => (kt.1 : Int))) := by
    intro a
    constructor
    · intro ha
      obtain ⟨kt, hkt, ha2⟩ := List.mem_flatMap.mp ha
      obtain ⟨x, hx, rfl⟩ := List.mem_map.mp ha2
      apply List.mem_map.mpr
      refine ⟨kt, List.mem_filter.mpr ⟨hkt, ?_⟩, rfl⟩
      simpa using List.ne_nil_of_mem hx
    · intro ha
      obtain ⟨kt, hkt, rfl⟩ := List.mem_map.mp ha
      obtain ⟨hkt1, hkt2⟩ := List.mem_filter.mp hkt
      apply List.mem_flatMap.mpr
      refine ⟨kt, hkt1, ?_⟩
      have hne2 : kt.2.rows ≠ [] := by
        simpa using hkt2
      obtain ⟨x, hx⟩ := List.exists_mem_of_ne_nil _ hne2
      exact List.mem_map.mpr ⟨x, hx, rfl⟩
  have hperm : (List.insertionSort (fun a b : Int => a ≤ b)
      (((enumFrom 0 tables).flatMap
        (fun kt => kt.2.rows.map (fun _ => (kt.1 : Int)))).dedup)).Perm
      (((enumFrom 0 tables).filter (fun kt => !kt.2.rows.isEmpty)).map
        (fun kt => (kt.1 : Int))) := by
    rw [List.perm_ext_iff_of_nodup hnd_sort hnd_pres]
    intro a
    rw [hperm1.mem_iff, List.mem_dedup]
    exact hmem a
  exact List.eq_of_perm_of_sorted hperm hsorted_sort hsorted_pres

/-! ### Full reconstruction: splitting a freshly joined matrix -/

theorem enum_filter_map_expand (g : List String) (tables : List Table) : ∀ i : Nat,
    ((enumFrom i tables).filter (fun kt => !kt.2.rows.isEmpty)).map
        (fun kt => expandTable g kt.2)
      = (tables.filter (fun t => !t.rows.isEmpty)).map (expandTable g) := by
  induction tables with
  | nil => intro i; rfl
  | cons t ts ih =>
    intro i
    rw [enumFrom, List.filter_cons, List.filter_cons]
    cases hp : t.rows.isEmpty <;> simp [hp, ih (i + 1)]

/-- Splitting the joint matrix of well-formed, separator-free tables, at
least one of which has a row, succeeds and returns the union-expanded
reconstruction of every table that has at least one row, in source order. -/
theorem split_make_joint (tables : List Table) (hwf : ∀ t ∈ tables, t.WF)
    (hns : ∀ t ∈ tables, ∀ x ∈ t.rows, ¬ (sepL <:+: x.data))
    (hne : ∃ t ∈ tables, t.rows ≠ []) :
    split_joint_matrix (make_joint_matrix tables) =
      Except.ok ((tables.filter (fun t => !t.rows.isEmpty)).map
        (expandTable (jointCols tables))) := by
  obtain ⟨t1, ht1, ht1ne⟩ := hne
  obtain ⟨x1, hx1⟩ := List.exists_mem_of_ne_nil _ ht1ne
  obtain ⟨k1, hk1⟩ := exists_mem_enumFrom 0 tables t1 ht1
  have hkne : blockKeys 0 tables ≠ [] := by
    apply List.ne_nil_of_mem (a := (k1, x1))
    unfold blockKeys
    exact List.mem_flatMap.mpr ⟨(k1, t1), hk1, List.mem_map.mpr ⟨x1, hx1, rfl⟩⟩
  have hkns : ∀ p ∈ blockKeys 0 tables, ¬ (sepL <:+: p.2.data) := by
    intro p hp
    unfold blockKeys at hp
    obtain ⟨kt, hkt, hp2⟩ := List.mem_flatMap.mp hp
    obtain ⟨x, hx, rfl⟩ := List.mem_map.mp hp2
    exact hns kt.2 (mem_enumFrom 0 tables kt hkt).2 x hx
  have hjm : make_joint_matrix tables =
      { rows := (blockKeys 0 tables).map (fun p => tagLabel p.1 p.2)
        cols := jointCols tables
        values := tables.flatMap
          (fun t => t.values.map (jointRowFor (jointCols tables) t)) } := by
    simp only [make_joint_matrix]
    rw [blockKeys_map_tag]
  rw [hjm, split_keyed _ _ _ hkne hkns]
  refine congrArg Except.ok ?_
  rw [blockKeys_map_fst, blockKeys_map_snd, flatMap_values_enum _ _ 0]
  rw [triples_blocks _ _ _ hwf]
  rw [sort_dedup_blocks]
  rw [List.map_map]
  rw [← enum_filter_map_expand (jointCols tables) tables 0]
  apply List.map_congr_left
  intro kt hkt
  have hkt_enum : kt ∈ enumFrom 0 tables := (List.mem_filter.mp hkt).1
  have hwfkt : kt.2.WF := hwf kt.2 (mem_enumFrom 0 tables kt hkt_enum).2
  obtain ⟨k0, t0⟩ := kt
  have hfil := filter_blocks_eq (jointCols tables) tables 0 k0 t0 hkt_enum
  show
    { rows := (((enumFrom 0 tables).flatMap
          (blockTriples (jointCols tables))).filter
          (fun tr => tr.1 == ((k0, t0).1 : Int))).map (fun tr => tr.2.1)
      cols := jointCols tables
      values := (((enumFrom 0 tables).flatMap
          (blockTriples (jointCols tables))).filter
          (fun tr => tr.1 == ((k0, t0).1 : Int))).map (fun tr => tr.2.2) }
      = expandTable (jointCols tables) (k0, t0).2
  rw [hfil]
  have hlenv : (t0.values.map (jointRowFor (jointCols tables) t0)).length
      = t0.rows.length := by
    simp [hwfkt.1]
  unfold blockTriples expandTable
  congr 1
  · rw [List.map_map]
    exact List.map_fst_zip t0.rows _ (by rw [hlenv])
  · rw [List.map_map]
    exact List.map_snd_zip _ _ (by rw [hlenv])

/-! ### Support lemmas for the individual claims -/

theorem split_nil_rows (jmat : Table) (h : jmat.rows = []) :
    split_joint_matrix jmat = Except.error SplitError.malformedJointTable := by
  unfold split_joint_matrix
  rw [h]
  rfl

theorem flatMap_rows_nil (tables : List Table) (h : ∀ t ∈ tables, t.rows = []) : ∀ i : Nat,
    (enumFrom i tables).flatMap (fun kt => kt.2.rows.map (tagLabel kt.1)) = [] := by
  induction tables with
  | nil => intro i; rfl
  | cons t ts ih =>
    intro i
    rw [enumFrom, List.flatMap_cons]
    show (t.rows.map (tagLabel i))
        ++ (enumFrom (i + 1) ts).flatMap (fun kt => kt.2.rows.map (tagLabel kt.1)) = []
    rw [h t (by simp), List.map_nil, List.nil_append]
    exact ih (fun u hu => h u (by simp [hu])) (i + 1)

theorem make_joint_rows_nil (tables : List Table) (h : ∀ t ∈ tables, t.rows = []) :
    (make_joint_matrix tables).rows = [] := by
  show (enumFrom 0 tables).flatMap (fun kt => kt.2.rows.map (tagLabel kt.1)) = []
  exact flatMap_rows_nil tables h 0

theorem foldl_append_cols (tables : List Table) (g : String) : ∀ init : List String,
    (g ∈ tables.foldl (fun acc t => acc ++ t.cols) init
      ↔ g ∈ init ∨ ∃ t ∈ tables, g ∈ t.cols) := by
  induction tables with
  | nil => intro init; simp
  | cons t ts ih =>
    intro init
    rw [List.foldl_cons, ih (init ++ t.cols)]
    simp [List.mem_append]
    tauto

theorem mem_jointCols (tables : List Table) (g : String) :
    g ∈ jointCols tables ↔ ∃ t ∈ tables, g ∈ t.cols := by
  unfold jointCols
  rw [(List.perm_insertionSort _ _).mem_iff, List.mem_dedup, foldl_append_cols]
  simp

theorem jointCols_nodup (tables : List Table) : (jointCols tables).Nodup := by
  unfold jointCols
  exact ((List.perm_insertionSort _ _).nodup_iff).mpr (List.nodup_dedup _)

theorem restrict_expand (g : List String) (t : Table) (hwf : t.WF)
    (hsub : ∀ c ∈ t.cols, c ∈ g) (hgnd : g.Nodup) :
    restrictVals (expandTable g t) t.cols = t.values := by
  unfold restrictVals expandTable
  rw [List.map_map]
  have hrow : ∀ v ∈ t.values,
      t.cols.map (fun c => ((g.zip (jointRowFor g t v)).lookup c).getD 0) = v := by
    intro v hv
    have hlookup : ∀ c ∈ t.cols,
        ((g.zip (jointRowFor g t v)).lookup c) = some (((t.cols.zip v).lookup c).getD 0) := by
      intro c hc
      exact lookup_zip_map_self g _ c hgnd (hsub c hc)
    have hsame : t.cols.map (fun c => ((g.zip (jointRowFor g t v)).lookup c).getD 0)
        = t.cols.map (fun c => ((t.cols.zip v).lookup c).getD 0) :=
      List.map_congr_left (fun c hc => by rw [hlookup c hc]; rfl)
    rw [hsame]
    exact map_lookup_zip t.cols v 0 hwf.2.2 (hwf.2.1 v hv)
  calc (t.values.map fun v =>
          t.cols.map fun c => (((g.zip (jointRowFor g t v)).lookup c).getD 0))
      = t.values.map (fun v => v) := List.map_congr_left hrow
    _ = t.values := by simp

theorem length_filter_lt {α : Type} (p : α → Bool) (l : List α) (a : α)
    (ha : a ∈ l) (hpa : p a = false) : (l.filter p).length < l.length := by
  induction l with
  | nil => simp at ha
  | cons b l ih =>
    rw [List.filter_cons]
    rcases List.mem_cons.mp ha with rfl | ha2
    · rw [hpa]
      simp only [List.length_cons]
      exact Nat.lt_succ_of_le (List.length_filter_le p l)
    · cases hpb : p b
      · simp only [List.length_cons]
        exact Nat.lt_succ_of_lt (ih ha2)
      · simp only [List.length_cons]
        exact Nat.succ_lt_succ (ih ha2)

instance {ε α : Type} [DecidableEq ε] [DecidableEq α] : DecidableEq (Except ε α) := fun a b =>
  match a, b with
  | Except.ok x, Except.ok y =>
    if h : x = y then isTrue (by rw [h]) else isFalse (fun hc => h (by cases hc; rfl))
  | Except.ok _, Except.error _ => isFalse (fun hc => Except.noConfusion hc)
  | Except.error _, Except.ok _ => isFalse (fun hc => Except.noConfusion hc)
  | Except.error e, Except.error f =>
    if h : e = f then isTrue (by rw [h]) else isFalse (fun hc => h (by cases hc; rfl))

/-! ### The claims -/

/-- C2: on the concrete pair of tables `T0` (rows `a`, `b`; columns `g1`,
`g2`; values `[[1,2],[3,4]]`) and `T1` (row `x`; columns `g2`, `g3`;
values `[[5,6]]`), joining produces exactly the rows `0&-a`, `0&-b`,
`1&-x` over columns `g1`, `g2`, `g3` with values
`[[1,2,0],[3,4,0],[0,5,6]]`, and splitting that joint table returns
exactly the two union-expanded tables with the original row labels. -/
theorem claim_concrete_scenario :
    make_joint_matrix
        [{ rows := ["a", "b"], cols := ["g1", "g2"], values := [[1, 2], [3, 4]] },
         { rows := ["x"], cols := ["g2", "g3"], values := [[5, 6]] }]
      = { rows := ["0&-a", "0&-b", "1&-x"], cols := ["g1", "g2", "g3"],
          values := [[1, 2, 0], [3, 4, 0], [0, 5, 6]] }
    ∧ split_joint_matrix
        { rows := ["0&-a", "0&-b", "1&-x"], cols := ["g1", "g2", "g3"],
          values := [[1, 2, 0], [3, 4, 0], [0, 5, 6]] }
      = Except.ok
          [{ rows := ["a", "b"], cols := ["g1", "g2", "g3"],
             values := [[1, 2, 0], [3, 4, 0]] },
           { rows := ["x"], cols := ["g1", "g2", "g3"], values := [[0, 5, 6]] }] := by
  constructor
  · decide
  · decide

/-- C6 counterexample: `make_joint_matrix` applied to the empty list does
not signal any failure; it returns the degenerate empty table (no rows,
no columns, no values), contradicting the claim that an `InvalidInput`
failure is raised instead of a degenerate empty table being produced. -/
theorem claim_empty_input_cex :
    make_joint_matrix [] = { rows := [], cols := [], values := [] } := by
  decide

/-- C6 (amended): `make_joint_matrix []` returns the degenerate empty
table: its row list, column list and value matrix are all empty, and no
failure is signalled. -/
theorem claim_empty_input :
    (make_joint_matrix []).rows = [] ∧ (make_joint_matrix []).cols = []
      ∧ (make_joint_matrix []).values = [] := by
  decide

/-- C9 counterexample: `make_joint_matrix` applied to a table whose row
label `p&-q` already contains the separator raises nothing; it returns a
normal joint table whose row label is the tag prepended verbatim,
contradicting the claim that an `InvalidInput` failure is raised. -/
theorem claim_separator_input_cex :
    make_joint_matrix [{ rows := ["p&-q"], cols := ["g"], values := [[1]] }]
      = { rows := ["0&-p&-q"], cols := ["g"], values := [[1]] } := by
  decide

/-- C9 (amended): on a table whose row label already contains the
separator token, `make_joint_matrix` performs no validation and succeeds,
producing the ambiguous composite row label `0&-p&-q`. -/
theorem claim_separator_input :
    (make_joint_matrix [{ rows := ["p&-q"], cols := ["g"], values := [[1]] }]).rows
      = ["0&-p&-q"] := by
  decide

/-- C4: for a non-empty input list, a column label belongs to the joint
matrix's column list exactly when it belongs to some input table's column
list: the column set is exactly the union, nothing added, nothing
missing. -/
theorem claim_column_union (tables : List Table) (h0 : tables ≠ []) (g : String) :
    (g ∈ (make_joint_matrix tables).cols ↔ ∃ t ∈ tables, g ∈ t.cols) := by
  have hcols : (make_joint_matrix tables).cols = jointCols tables := rfl
  rw [hcols]
  exact mem_jointCols tables g

/-- C4 witness: on the concrete two-table input, `g3` is in the joint
columns exactly because the second table has it. -/
theorem claim_column_union_witness :
    (([{ rows := ["a", "b"], cols := ["g1", "g2"], values := [[1, 2], [3, 4]] },
       { rows := ["x"], cols := ["g2", "g3"], values := [[5, 6]] }] : List Table) ≠ [])
    ∧ ("g3" ∈ (make_joint_matrix
          [{ rows := ["a", "b"], cols := ["g1", "g2"], values := [[1, 2], [3, 4]] },
           { rows := ["x"], cols := ["g2", "g3"], values := [[5, 6]] }]).cols
        ↔ ∃ t ∈ [({ rows := ["a", "b"], cols := ["g1", "g2"], values := [[1, 2], [3, 4]] } : Table),
            { rows := ["x"], cols := ["g2", "g3"], values := [[5, 6]] }], "g3" ∈ t.cols) :=
  ⟨by decide, claim_column_union _ (by decide) "g3"⟩

theorem joint_values_get (gcols : List String) (tables : List Table) : ∀ (k : Nat) (t : Table),
    tables[k]? = some t → ∀ r : Nat, r < t.values.length →
    (tables.flatMap (fun u => u.values.map (jointRowFor gcols u)))[offsetBefore tables k + r]?
      = some (jointRowFor gcols t (t.values.getD r [])) := by
  induction tables with
  | nil => intro k t hk; simp at hk
  | cons t0 ts ih =>
    intro k t hk r hr
    rw [List.flatMap_cons]
    cases k with
    | zero =>
      have ht : t0 = t := by simpa using hk
      subst ht
      show (t0.values.map (jointRowFor gcols t0) ++ _)[0 + r]? = _
      rw [Nat.zero_add]
      rw [List.getElem?_append_left (by simpa using hr)]
      rw [List.getElem?_map]
      have hv : t0.values[r]? = some (t0.values.getD r []) := by
        rw [List.getD_eq_getElem?_getD]
        cases hvv : t0.values[r]? with
        | none =>
          exfalso
          rw [List.getElem?_eq_none_iff] at hvv
          omega
        | some v => rfl
      rw [hv]
      rfl
    | succ k2 =>
      show (t0.values.map (jointRowFor gcols t0)
          ++ ts.flatMap (fun u => u.values.map (jointRowFor gcols u)))[
            (t0.values.length + offsetBefore ts k2) + r]? = _
      rw [List.getElem?_append_right (by simp; omega)]
      simp only [List.length_map]
      have harith : t0.values.length + offsetBefore ts k2 + r - t0.values.length
          = offsetBefore ts k2 + r := by omega
      rw [harith]
      exact ih k2 t (by simpa using hk) r hr

/-- C3: in the joint matrix, the cell in the row coming from source `k`
(at that source's `r`-th row) under column `g` equals source `k`'s own
value at row `r`, column `g` when source `k` has column `g`, and `0`
when it does not (zero-fill). -/
theorem claim_zero_fill (tables : List Table) (h0 : tables ≠ [])
    (hwf : ∀ t ∈ tables, t.WF) (k : Nat) (t : Table) (hk : tables[k]? = some t)
    (r : Nat) (hr : r < t.values.length) (g : String) :
    cellAt (make_joint_matrix tables) (offsetBefore tables k + r) g
      = if g ∈ t.cols then cellAt t r g else 0 := by
  have hmem_t : t ∈ tables := by
    obtain ⟨hlt, hget⟩ := List.getElem?_eq_some_iff.mp hk
    exact hget ▸ List.getElem_mem hlt
  have hval := joint_values_get (jointCols tables) tables k t hk r hr
  unfold cellAt
  have hcols : (make_joint_matrix tables).cols = jointCols tables := rfl
  have hvals : (make_joint_matrix tables).values
      = tables.flatMap (fun u => u.values.map (jointRowFor (jointCols tables) u)) := rfl
  rw [hcols, hvals, List.getD_eq_getElem?_getD, hval]
  show (((jointCols tables).zip
      (jointRowFor (jointCols tables) t (t.values.getD r []))).lookup g).getD 0 = _
  unfold jointRowFor
  by_cases hg : g ∈ t.cols
  · rw [if_pos hg]
    have hgg : g ∈ jointCols tables := (mem_jointCols tables g).mpr ⟨t, hmem_t, hg⟩
    rw [lookup_zip_map_self _ _ _ (jointCols_nodup tables) hgg]
    rfl
  · rw [if_neg hg]
    by_cases hgg : g ∈ jointCols tables
    · rw [lookup_zip_map_self _ _ _ (jointCols_nodup tables) hgg]
      show (((t.cols.zip (t.values.getD r [])).lookup g).getD 0) = 0
      rw [lookup_zip_not_mem _ _ _ hg]
      rfl
    · rw [lookup_zip_not_mem _ _ _ hgg]
      rfl

/-- C3 witness: in the concrete two-table join, the row coming from
source 1 has value 0 under column `g1` (zero-fill: source 1 lacks `g1`),
as the claim applied at source 1, row 0, column `g1` states. -/
theorem claim_zero_fill_witness :
    (([{ rows := ["a", "b"], cols := ["g1", "g2"], values := [[1, 2], [3, 4]] },
       { rows := ["x"], cols := ["g2", "g3"], values := [[5, 6]] }] : List Table) ≠ []
      ∧ (∀ t ∈ ([{ rows := ["a", "b"], cols := ["g1", "g2"], values := [[1, 2], [3, 4]] },
          { rows := ["x"], cols := ["g2", "g3"], values := [[5, 6]] }] : List Table), t.WF)
      ∧ ([({ rows := ["a", "b"], cols := ["g1", "g2"], values := [[1, 2], [3, 4]] } : Table),
          { rows := ["x"], cols := ["g2", "g3"], values := [[5, 6]] }][1]?
          = some { rows := ["x"], cols := ["g2", "g3"], values := [[5, 6]] })
      ∧ 0 < ({ rows := ["x"], cols := ["g2", "g3"], values := [[5, 6]] } : Table).values.length)
    ∧ cellAt (make_joint_matrix
          [{ rows := ["a", "b"], cols := ["g1", "g2"], values := [[1, 2], [3, 4]] },
           { rows := ["x"], cols := ["g2", "g3"], values := [[5, 6]] }])
        (offsetBefore
          [{ rows := ["a", "b"], cols := ["g1", "g2"], values := [[1, 2], [3, 4]] },
           { rows := ["x"], cols := ["g2", "g3"], values := [[5, 6]] }] 1 + 0) "g1"
      = if "g1" ∈ ({ rows := ["x"], cols := ["g2", "g3"], values := [[5, 6]] } : Table).cols
        then cellAt { rows := ["x"], cols := ["g2", "g3"], values := [[5, 6]] } 0 "g1"
        else 0 :=
  ⟨by refine ⟨by decide, by decide, by decide, by decide⟩,
    claim_zero_fill _ (by decide) (by decide) 1 _ (by decide) 0 (by decide) "g1"⟩

/-- C5: whenever splitting a joint matrix built from separator-free
tables returns a list of tables, their row labels are exactly the
original row labels (string equality, hence character for character), one
returned table per input table that has rows, in order. -/
theorem claim_label_roundtrip (tables mats : List Table) (h0 : tables ≠ [])
    (hwf : ∀ t ∈ tables, t.WF)
    (hsep : ∀ t ∈ tables, ∀ x ∈ t.rows, ¬ (sepL <:+: x.data))
    (hmats : split_joint_matrix (make_joint_matrix tables) = Except.ok mats) :
    mats.map Table.rows = (tables.filter (fun t => !t.rows.isEmpty)).map Table.rows := by
  by_cases hne : ∃ t ∈ tables, t.rows ≠ []
  · have hmain := split_make_joint tables hwf hsep hne
    rw [hmain] at hmats
    have hinj : ((tables.filter (fun t => !t.rows.isEmpty)).map
        (expandTable (jointCols tables))) = mats := by
      injection hmats
    rw [← hinj, List.map_map]
    rfl
  · push_neg at hne
    have hnil := split_nil_rows (make_joint_matrix tables)
      (make_joint_rows_nil tables (fun t ht => hne t ht))
    rw [hnil] at hmats
    exact Except.noConfusion hmats

/-- C5 witness: on the concrete two-table input (labels `a`, `b`, `x`,
none containing the separator), the labels of the split tables equal the
original labels exactly. -/
theorem claim_label_roundtrip_witness :
    (([{ rows := ["a", "b"], cols := ["g1", "g2"], values := [[1, 2], [3, 4]] },
       { rows := ["x"], cols := ["g2", "g3"], values := [[5, 6]] }] : List Table) ≠ []
      ∧ (∀ t ∈ ([{ rows := ["a", "b"], cols := ["g1", "g2"], values := [[1, 2], [3, 4]] },
          { rows := ["x"], cols := ["g2", "g3"], values := [[5, 6]] }] : List Table), t.WF)
      ∧ (∀ t ∈ ([{ rows := ["a", "b"], cols := ["g1", "g2"], values := [[1, 2], [3, 4]] },
          { rows := ["x"], cols := ["g2", "g3"], values := [[5, 6]] }] : List Table),
          ∀ x ∈ t.rows, ¬ (sepL <:+: x.data))
      ∧ split_joint_matrix (make_joint_matrix
          [{ rows := ["a", "b"], cols := ["g1", "g2"], values := [[1, 2], [3, 4]] },
           { rows := ["x"], cols := ["g2", "g3"], values := [[5, 6]] }])
        = Except.ok
            [{ rows := ["a", "b"], cols := ["g1", "g2", "g3"],
               values := [[1, 2, 0], [3, 4, 0]] },
             { rows := ["x"], cols := ["g1", "g2", "g3"], values := [[0, 5, 6]] }])
    ∧ ([({ rows := ["a", "b"], cols := ["g1", "g2", "g3"], values := [[1, 2, 0], [3, 4, 0]] } : Table),
        { rows := ["x"], cols := ["g1", "g2", "g3"], values := [[0, 5, 6]] }].map Table.rows
      = (([{ rows := ["a", "b"], cols := ["g1", "g2"], values := [[1, 2], [3, 4]] },
          { rows := ["x"], cols := ["g2", "g3"], values := [[5, 6]] }] : List Table).filter
            (fun t => !t.rows.isEmpty)).map Table.rows) :=
  ⟨⟨by decide, by decide, by decide, by decide⟩,
    claim_label_roundtrip _ _ (by decide) (by decide) (by decide) (by decide)⟩

/-- C1 counterexample: the input pair (first table with no rows over
column `g1`, second table with one row `x`, value 7) satisfies all of the
claim's premises (non-empty list, no separator in labels, no cross-table
label collisions), yet `split(join(...))` returns only one table, and
that single result restricted to the first table's columns differs from
the first table's (empty) values: the claim fails at index 0. -/
theorem claim_value_roundtrip_cex :
    split_joint_matrix (make_joint_matrix
        [{ rows := [], cols := ["g1"], values := [] },
         { rows := ["x"], cols := ["g1"], values := [[7]] }])
      = Except.ok [{ rows := ["x"], cols := ["g1"], values := [[7]] }]
    ∧ restrictVals { rows := ["x"], cols := ["g1"], values := [[7]] }
        ({ rows := [], cols := ["g1"], values := [] } : Table).cols
      ≠ ({ rows := [], cols := ["g1"], values := [] } : Table).values := by
  constructor
  · decide
  · decide

/-- C1 (amended): additionally requiring every input table to have at
least one row, `split(join(tables))` succeeds with one table per input,
and the `i`-th result restricted to the `i`-th input's original columns
has exactly the `i`-th input's values. -/
theorem claim_value_roundtrip (tables : List Table) (h0 : tables ≠ [])
    (hwf : ∀ t ∈ tables, t.WF)
    (hsep : ∀ t ∈ tables, ∀ x ∈ t.rows, ¬ (sepL <:+: x.data))
    (hrne : ∀ t ∈ tables, t.rows ≠ [])
    (hdisj : tables.Pairwise (fun t1 t2 => ∀ x ∈ t1.rows, x ∉ t2.rows))
    (i : Nat) (ti : Table) (hi : tables[i]? = some ti) :
    ∃ mats, split_joint_matrix (make_joint_matrix tables) = Except.ok mats
      ∧ mats.length = tables.length
      ∧ ∃ mi, mats[i]? = some mi ∧ restrictVals mi ti.cols = ti.values := by
  have hfil : tables.filter (fun t => !t.rows.isEmpty) = tables :=
    List.filter_eq_self.mpr (fun t ht => by simpa using hrne t ht)
  have hsome : ∃ t ∈ tables, t.rows ≠ [] := by
    cases tables with
    | nil => exact absurd rfl h0
    | cons t ts => exact ⟨t, by simp, hrne t (by simp)⟩
  have hmain := split_make_joint tables hwf hsep hsome
  rw [hfil] at hmain
  have hti : ti ∈ tables := by
    obtain ⟨hlt, hget⟩ := List.getElem?_eq_some_iff.mp hi
    exact hget ▸ List.getElem_mem hlt
  refine ⟨tables.map (expandTable (jointCols tables)), hmain, by simp, ?_⟩
  refine ⟨expandTable (jointCols tables) ti, ?_, ?_⟩
  · rw [List.getElem?_map, hi]
    rfl
  · exact restrict_expand (jointCols tables) ti (hwf ti hti)
      (fun c hc => (mem_jointCols tables c).mpr ⟨ti, hti, hc⟩) (jointCols_nodup tables)

/-- C1 witness: the amended claim applied to the concrete two-table input
at index 0. -/
theorem claim_value_roundtrip_witness :
    (([{ rows := ["a", "b"], cols := ["g1", "g2"], values := [[1, 2], [3, 4]] },
       { rows := ["x"], cols := ["g2", "g3"], values := [[5, 6]] }] : List Table) ≠ []
      ∧ (∀ t ∈ ([{ rows := ["a", "b"], cols := ["g1", "g2"], values := [[1, 2], [3, 4]] },
          { rows := ["x"], cols := ["g2", "g3"], values := [[5, 6]] }] : List Table), t.WF)
      ∧ (∀ t ∈ ([{ rows := ["a", "b"], cols := ["g1", "g2"], values := [[1, 2], [3, 4]] },
          { rows := ["x"], cols := ["g2", "g3"], values := [[5, 6]] }] : List Table),
          ∀ x ∈ t.rows, ¬ (sepL <:+: x.data))
      ∧ (∀ t ∈ ([{ rows := ["a", "b"], cols := ["g1", "g2"], values := [[1, 2], [3, 4]] },
          { rows := ["x"], cols := ["g2", "g3"], values := [[5, 6]] }] : List Table),
          t.rows ≠ [])
      ∧ ([{ rows := ["a", "b"], cols := ["g1", "g2"], values := [[1, 2], [3, 4]] },
          { rows := ["x"], cols := ["g2", "g3"], values := [[5, 6]] }] : List Table).Pairwise
            (fun t1 t2 => ∀ x ∈ t1.rows, x ∉ t2.rows)
      ∧ ([({ rows := ["a", "b"], cols := ["g1", "g2"], values := [[1, 2], [3, 4]] } : Table),
          { rows := ["x"], cols := ["g2", "g3"], values := [[5, 6]] }][0]?
          = some { rows := ["a", "b"], cols := ["g1", "g2"], values := [[1, 2], [3, 4]] }))
    ∧ ∃ mats, split_joint_matrix (make_joint_matrix
          [{ rows := ["a", "b"], cols := ["g1", "g2"], values := [[1, 2], [3, 4]] },
           { rows := ["x"], cols := ["g2", "g3"], values := [[5, 6]] }])
        = Except.ok mats
      ∧ mats.length = ([{ rows := ["a", "b"], cols := ["g1", "g2"], values := [[1, 2], [3, 4]] },
          { rows := ["x"], cols := ["g2", "g3"], values := [[5, 6]] }] : List Table).length
      ∧ ∃ mi, mats[0]? = some mi
          ∧ restrictVals mi ({ rows := ["a", "b"], cols := ["g1", "g2"], values := [[1, 2], [3, 4]] } : Table).cols
            = ({ rows := ["a", "b"], cols := ["g1", "g2"], values := [[1, 2], [3, 4]] } : Table).values :=
  ⟨⟨by decide, by decide, by decide, by decide, by decide, by decide⟩,
    claim_value_roundtrip _ (by decide) (by decide) (by decide) (by decide) (by decide)
      0 _ (by decide)⟩

/-- C10 counterexample: with a single zero-row input table the claim's
premises hold (non-empty list, a table with zero rows), but
`split(join([T]))` does not return a (shorter) list of tables at all: the
split aborts with the malformed-joint-table failure, because the joint
matrix has no rows. -/
theorem claim_zero_row_sources_cex :
    split_joint_matrix (make_joint_matrix [{ rows := [], cols := ["g1"], values := [] }])
      = Except.error SplitError.malformedJointTable := by
  decide

/-- C10 (amended): additionally requiring at least one input table to
have a row, `split(join(tables))` succeeds and returns exactly one table
per input table that has at least one row, in ascending source order
(the union-expanded reconstruction of each), so so the result is strictly
shorter than the input list. -/
theorem claim_zero_row_sources (tables : List Table)
    (hwf : ∀ t ∈ tables, t.WF)
    (hsep : ∀ t ∈ tables, ∀ x ∈ t.rows, ¬ (sepL <:+: x.data))
    (hzero : ∃ t ∈ tables, t.rows = [])
    (hsome : ∃ t ∈ tables, t.rows ≠ []) :
    ∃ mats, split_joint_matrix (make_joint_matrix tables) = Except.ok mats
      ∧ mats = (tables.filter (fun t => !t.rows.isEmpty)).map
          (expandTable (jointCols tables))
      ∧ mats.length < tables.length := by
  refine ⟨_, split_make_joint tables hwf hsep hsome, rfl, ?_⟩
  rw [List.length_map]
  obtain ⟨t0, ht0, ht0e⟩ := hzero
  apply length_filter_lt _ _ t0 ht0
  simp [ht0e]

/-- C10 witness: one zero-row table followed by a one-row table; split of
the join returns a single reconstructed table, strictly fewer than the
two inputs. -/
theorem claim_zero_row_sources_witness :
    ((∀ t ∈ ([{ rows := [], cols := ["g1"], values := [] },
        { rows := ["x"], cols := ["g1"], values := [[7]] }] : List Table), t.WF)
      ∧ (∀ t ∈ ([{ rows := [], cols := ["g1"], values := [] },
          { rows := ["x"], cols := ["g1"], values := [[7]] }] : List Table),
          ∀ x ∈ t.rows, ¬ (sepL <:+: x.data))
      ∧ (∃ t ∈ ([{ rows := [], cols := ["g1"], values := [] },
          { rows := ["x"], cols := ["g1"], values := [[7]] }] : List Table), t.rows = [])
      ∧ (∃ t ∈ ([{ rows := [], cols := ["g1"], values := [] },
          { rows := ["x"], cols := ["g1"], values := [[7]] }] : List Table), t.rows ≠ []))
    ∧ ∃ mats, split_joint_matrix (make_joint_matrix
          [{ rows := [], cols := ["g1"], values := [] },
           { rows := ["x"], cols := ["g1"], values := [[7]] }])
        = Except.ok mats
      ∧ mats = (([{ rows := [], cols := ["g1"], values := [] },
          { rows := ["x"], cols := ["g1"], values := [[7]] }] : List Table).filter
            (fun t => !t.rows.isEmpty)).map
          (expandTable (jointCols
            [{ rows := [], cols := ["g1"], values := [] },
             { rows := ["x"], cols := ["g1"], values := [[7]] }]))
      ∧ mats.length < ([{ rows := [], cols := ["g1"], values := [] },
          { rows := ["x"], cols := ["g1"], values := [[7]] }] : List Table).length :=
  ⟨⟨by decide, by decide, by decide, by decide⟩,
    claim_zero_row_sources _ (by decide) (by decide) (by decide) (by decide)⟩

theorem triples_eq_zipmap (keys : List (Nat × String)) : ∀ vals : List (List Int),
    keys.length = vals.length →
    (keys.map (fun p => (p.1 : Int))).zip ((keys.map (fun p => p.2)).zip vals)
      = (keys.zip vals).map (fun q => ((q.1.1 : Int), q.1.2, q.2)) := by
  induction keys with
  | nil => intro vals _; rfl
  | cons p keys ih =>
    intro vals h
    cases vals with
    | nil => simp at h
    | cons v vals =>
      rw [List.map_cons, List.map_cons, List.zip_cons_cons, List.zip_cons_cons,
        List.zip_cons_cons, List.map_cons, ih vals (by simpa using h)]

theorem keyed_rows_eq (keys : List (Nat × String)) (vals : List (List Int)) (k : Int)
    (hlen : keys.length = vals.length) :
    ((((keys.map (fun p => (p.1 : Int))).zip ((keys.map (fun p => p.2)).zip vals)).filter
        (fun tr => tr.1 == k)).map (fun tr => tr.2.1))
      = (keys.filter (fun p => (p.1 : Int) == k)).map (fun p => p.2) := by
  rw [triples_eq_zipmap keys vals hlen, filter_map_comm, List.map_map]
  show ((keys.zip vals).filter (fun q => (q.1.1 : Int) == k)).map (fun q => q.1.2)
      = (keys.filter (fun p => (p.1 : Int) == k)).map (fun p => p.2)
  have hsplit : ((keys.zip vals).filter (fun q => (q.1.1 : Int) == k)).map (fun q => q.1.2)
      = (((keys.zip vals).filter (fun q => (q.1.1 : Int) == k)).map (fun q => q.1)).map
          (fun p => p.2) := by
    rw [List.map_map]
    rfl
  rw [hsplit]
  congr 1
  exact zip_filter_fst keys vals (fun p => (p.1 : Int) == k) hlen

theorem keyed_values_eq (keys : List (Nat × String)) (vals : List (List Int)) (k : Int)
    (hlen : keys.length = vals.length) :
    ((((keys.map (fun p => (p.1 : Int))).zip ((keys.map (fun p => p.2)).zip vals)).filter
        (fun tr => tr.1 == k)).map (fun tr => tr.2.2))
      = ((keys.zip vals).filter (fun q => (q.1.1 : Int) == k)).map (fun q => q.2) := by
  rw [triples_eq_zipmap keys vals hlen, filter_map_comm, List.map_map]
  rfl

theorem keyed_values_sublist (keys : List (Nat × String)) (vals : List (List Int)) (k : Int)
    (hlen : keys.length = vals.length) :
    (((keys.zip vals).filter (fun q => (q.1.1 : Int) == k)).map (fun q => q.2)).Sublist
      vals := by
  have h1 : List.Sublist ((keys.zip vals).filter (fun q => (q.1.1 : Int) == k))
      (keys.zip vals) := List.filter_sublist _
  have h2 := List.Sublist.map (fun q : (Nat × String) × List Int => q.2) h1
  have h3 : (keys.zip vals).map (fun q => q.2) = vals :=
    List.map_snd_zip keys vals (by omega)
  rw [h3] at h2
  exact h2

/-- C8: splitting a well-formed joint table — one whose row labels are
composite keys `str(k) + "&-" + name` with separator-free names — returns
the recovered tables ordered by strictly ascending source index, exactly
one per source index present among the keys; each returned table holds
precisely the rows whose composite key carries its index, with the
decoded names as labels, in the joint table's relative row order (its
value rows form a sublist of the joint table's value rows). -/
theorem claim_split_order (keys : List (Nat × String)) (gcols : List String)
    (vals : List (List Int)) (hne : keys ≠ []) (hlen : keys.length = vals.length)
    (hns : ∀ p ∈ keys, ¬ (sepL <:+: p.2.data)) :
    ∃ (mats : List Table) (ks : List Int),
      split_joint_matrix
          { rows := keys.map (fun p => tagLabel p.1 p.2), cols := gcols, values := vals }
        = Except.ok mats
      ∧ ks.Pairwise (fun a b : Int => a < b)
      ∧ (∀ a : Int, (a ∈ ks ↔ ∃ p ∈ keys, (p.1 : Int) = a))
      ∧ mats.length = ks.length
      ∧ (∀ (j : Nat) (k : Int), ks[j]? = some k →
          ∃ m, mats[j]? = some m
            ∧ m.rows = (keys.filter (fun p => (p.1 : Int) == k)).map (fun p => p.2)
            ∧ m.values = ((keys.zip vals).filter (fun q => (q.1.1 : Int) == k)).map
                (fun q => q.2)
            ∧ m.values.Sublist vals) := by
  have hsk := split_keyed keys gcols vals hne hns
  refine ⟨_, (List.insertionSort (fun a b : Int => a ≤ b)
    ((keys.map (fun p => (p.1 : Int))).dedup) : List Int), hsk, ?_, ?_, ?_, ?_⟩
  · have hsorted := List.sorted_insertionSort (fun a b : Int => a ≤ b)
      ((keys.map (fun p => (p.1 : Int))).dedup)
    have hnd : (List.insertionSort (fun a b : Int => a ≤ b)
        ((keys.map (fun p => (p.1 : Int))).dedup)).Nodup :=
      ((List.perm_insertionSort _ _).nodup_iff).mpr (List.nodup_dedup _)
    exact List.Sorted.lt_of_le hsorted hnd
  · intro a
    rw [(List.perm_insertionSort _ _).mem_iff, List.mem_dedup]
    constructor
    · intro h
      obtain ⟨p, hp, he⟩ := List.mem_map.mp h
      exact ⟨p, hp, he⟩
    · rintro ⟨p, hp, he⟩
      exact List.mem_map.mpr ⟨p, hp, he⟩
  · simp
  · intro j k hjk
    refine ⟨Table.mk
      ((((keys.map (fun p => (p.1 : Int))).zip
        ((keys.map (fun p => p.2)).zip vals)).filter
        (fun tr => tr.1 == k)).map (fun tr => tr.2.1))
      gcols
      ((((keys.map (fun p => (p.1 : Int))).zip
        ((keys.map (fun p => p.2)).zip vals)).filter
        (fun tr => tr.1 == k)).map (fun tr => tr.2.2)),
      ?_, keyed_rows_eq keys vals k hlen, keyed_values_eq keys vals k hlen, ?_⟩
    · rw [List.getElem?_map, hjk]
      rfl
    · show ((((keys.map (fun p => (p.1 : Int))).zip
          ((keys.map (fun p => p.2)).zip vals)).filter
          (fun tr => tr.1 == k)).map (fun tr => tr.2.2)).Sublist vals
      rw [keyed_values_eq keys vals k hlen]
      exact keyed_values_sublist keys vals k hlen

/-- C8 witness: a joint table with keys `(1, b)` and `(0, a)` (out of
source order) splits into two tables ordered by ascending source index,
each carrying its own row. -/
theorem claim_split_order_witness :
    (([((1 : Nat), "b"), (0, "a")] : List (Nat × String)) ≠ []
      ∧ ([((1 : Nat), "b"), (0, "a")] : List (Nat × String)).length
          = ([[5], [7]] : List (List Int)).length
      ∧ (∀ p ∈ ([((1 : Nat), "b"), (0, "a")] : List (Nat × String)),
          ¬ (sepL <:+: p.2.data)))
    ∧ ∃ (mats : List Table) (ks : List Int),
      split_joint_matrix
          { rows := ([((1 : Nat), "b"), (0, "a")] : List (Nat × String)).map
              (fun p => tagLabel p.1 p.2),
            cols := ["g"], values := [[5], [7]] }
        = Except.ok mats
      ∧ ks.Pairwise (fun a b : Int => a < b)
      ∧ (∀ a : Int, (a ∈ ks
          ↔ ∃ p ∈ ([((1 : Nat), "b"), (0, "a")] : List (Nat × String)), (p.1 : Int) = a))
      ∧ mats.length = ks.length
      ∧ (∀ (j : Nat) (k : Int), ks[j]? = some k →
          ∃ m, mats[j]? = some m
            ∧ m.rows = (([((1 : Nat), "b"), (0, "a")] : List (Nat × String)).filter
                (fun p => (p.1 : Int) == k)).map (fun p => p.2)
            ∧ m.values = ((([((1 : Nat), "b"), (0, "a")] : List (Nat × String)).zip
                ([[5], [7]] : List (List Int))).filter
                (fun q => (q.1.1 : Int) == k)).map (fun q => q.2)
            ∧ m.values.Sublist ([[5], [7]] : List (List Int))) :=
  ⟨⟨by decide, by decide, by decide⟩,
    claim_split_order [((1 : Nat), "b"), (0, "a")] ["g"] [[5], [7]]
      (by decide) (by decide) (by decide)⟩
